import Mathlib

/-! Shallow embedding of refrapt (a Debian repository mirroring tool).

Modelled modules: `refrapt/helpers.py` (SanitiseUri, UnzipFile),
`refrapt/classes.py` (Repository.__init__, Timestamp, PackageCollection,
SourceCollection, Index.GetPackages), `refrapt/refrapt.py` (UnzipFile,
Clean, GetSources) and `refrapt/settings.py` (flags).

Strings are modelled as `String`/`List Char`; Python regexes `\w` and `\d`
are modelled over ASCII; file mtimes are modelled as rationals; the
filesystem is modelled as a partial map from path to mtime. -/

/-- ASCII model of the Python regex class `\w` (word character). -/
def isWordChar (c : Char) : Bool := c.isAlpha || c.isDigit || c == '_'

/-- Whether the head of a character list is a decimal digit. -/
def headIsDigit : List Char → Bool
  | [] => false
  | c :: _ => c.isDigit

/-- Whether `re.sub(r"^(\w+)://", "", uri)` matches: the maximal leading run of
word characters is nonempty and is immediately followed by the literal `://`.
(Backtracking cannot produce any other match because `:` is not a word
character.) -/
def startsWithScheme (l : List Char) : Bool :=
  !(l.takeWhile isWordChar).isEmpty &&
    decide ((l.dropWhile isWordChar).take 3 = [':', '/', '/'])

/-- Effect of `re.sub(r"^(\w+)://", "", uri)` in `helpers.SanitiseUri`. -/
def removeScheme (l : List Char) : List Char :=
  if startsWithScheme l then (l.dropWhile isWordChar).drop 3 else l

/-- Effect of `re.sub(r":\d+", "", uri)` in `helpers.SanitiseUri`: delete every
leftmost, greedily maximal occurrence of a colon followed by one or more
digits, scanning left to right.  The Boolean flag records whether the scan is
currently inside the digit run of a match being deleted (this renders the
left-to-right deletion structurally recursive). -/
def removePortAux : Bool → List Char → List Char
  | _, [] => []
  | skipping, c :: rest =>
    if skipping && c.isDigit then removePortAux true rest
    else if c == ':' && headIsDigit rest then removePortAux true rest
    else c :: removePortAux false rest

/-- `re.sub(r":\d+", "", uri)` applied to a whole string. -/
def removePort (l : List Char) : List Char := removePortAux false l

/-- `helpers.SanitiseUri`: strip a leading `scheme://`, then strip every
`:<digits>` port token. -/
def SanitiseUri (s : String) : String := String.mk (removePort (removeScheme s.data))

/-- No colon immediately followed by a digit occurs anywhere in the list
(the negation of a `re.search(r":\d+", _)` hit). -/
def colonDigitFree : List Char → Bool
  | [] => true
  | c :: rest => !(c == ':' && headIsDigit rest) && colonDigitFree rest

/-- `startsWithL pat l`: `l` starts with `pat`. -/
def startsWithL : List Char → List Char → Bool
  | [], _ => true
  | _ :: _, [] => false
  | p :: ps, c :: cs => p == c && startsWithL ps cs

/-- `containsSub pat l`: `pat` occurs as a contiguous substring of `l`
(Python's `pat in l` on strings). -/
def containsSub (pat : List Char) : List Char → Bool
  | [] => startsWithL pat []
  | c :: rest => startsWithL pat (c :: rest) || containsSub pat rest

/-! Repository descriptor parsing (`classes.Repository.__init__`) and the
configuration-line selection of `refrapt.GetSources`. -/

/-- The two repository kinds (`classes.RepositoryType`). -/
inductive RepositoryType where
  | Bin
  | Src
deriving DecidableEq, Repr

/-- The fields recorded by `Repository.__init__`. -/
structure Repository where
  repositoryType : RepositoryType
  architectures : List String
  uri : String
  distribution : String
  components : List String
  clean : Bool
deriving DecidableEq, Repr

/-- Python `line.split(sep)` for a single-character separator: split at every
occurrence of `sep`, keeping empty segments. -/
def pySplitChar (sep : Char) : List Char → List (List Char)
  | [] => [[]]
  | c :: rest =>
    let r := pySplitChar sep rest
    if c == sep then [] :: r else (c :: r.headD []) :: r.tail

/-- Python `line.replace("arch=", "")`: delete every occurrence of `arch=`,
scanning left to right. -/
def replaceArch : List Char → List Char
  | 'a' :: 'r' :: 'c' :: 'h' :: '=' :: rest => replaceArch rest
  | c :: rest => c :: replaceArch rest
  | [] => []

/-- `line[0:line.index("#")]` guarded by `"#" in line`: strip an inline
comment. -/
def stripComment (l : List Char) : List Char :=
  if l.contains '#' then l.takeWhile (fun c => c != '#') else l

/-- `list(filter(None, line.split(" ")))`: whitespace tokens of a line
(splitting on single spaces only, as the source does). -/
def tokensOf (l : List Char) : List (List Char) :=
  (pySplitChar ' ' l).filter (fun t => !t.isEmpty)

/-- `line.split("[")[1].split("]")[0].replace("arch=", "").split(",")`:
the explicit architecture list of a bracketed `[arch=...]` group.
(`split("]")[0]` is the prefix before the first `]`.) -/
def parseArchList (l : List Char) : List (List Char) :=
  pySplitChar ',' (replaceArch (((pySplitChar '[' l).getD 1 []).takeWhile (fun c => c != ']')))

/-- The kind dispatch of `Repository.__init__`: `elements[0] == "deb"` gives
Binary, else `'deb-src' in elements[0]` (substring!) gives Source, else the
initial default (Binary) is kept.  No value is ever rejected. -/
def repoTypeOf (e0 : List Char) : RepositoryType :=
  if e0 = "deb".data then RepositoryType.Bin
  else if containsSub "deb-src".data e0 then RepositoryType.Src
  else RepositoryType.Bin

/-- `"[" in line and "]" in line`: an explicit architecture bracket is
present. -/
def hasArchBracket (lineC : List Char) : Bool :=
  lineC.contains '[' && lineC.contains ']'

/-- The architectures list of `Repository.__init__`: the bracketed list when
present, else the single default architecture. -/
def archsOf (lineC : List Char) (defaultArch : String) : List String :=
  if hasArchBracket lineC then (parseArchList lineC).map (fun a => String.mk a)
  else [defaultArch]

/-- The token index of the URI (advanced past a bracket group). -/
def elementIndexOf (lineC : List Char) : Nat := if hasArchBracket lineC then 2 else 1

/-- `classes.Repository.__init__`.  Returns `none` where the Python code would
raise an `IndexError` (too few tokens); it performs no other validation. -/
def parseRepository (line defaultArch : String) : Option Repository :=
  let lineC := stripComment line.data
  let elements := tokensOf lineC
  match elements with
  | [] => none
  | e0 :: _ =>
    match elements.get? (elementIndexOf lineC) with
    | none => none
    | some uri =>
      match elements.get? (elementIndexOf lineC + 1) with
      | some d =>
        if d ≠ "/".data then
          some ⟨repoTypeOf e0, archsOf lineC defaultArch, String.mk uri, String.mk d,
            (elements.drop (elementIndexOf lineC + 2)).map (fun c => String.mk c), true⟩
        else
          some ⟨repoTypeOf e0, archsOf lineC defaultArch, String.mk uri, "", [], true⟩
      | none => some ⟨repoTypeOf e0, archsOf lineC defaultArch, String.mk uri, "", [], true⟩

/-- The configuration-line filter of `refrapt.GetSources`: only lines for
which `x.startswith("deb")` holds are turned into Repository descriptors. -/
def getSourcesSelects (line : String) : Bool := startsWithL "deb".data line.data

/-! The two duplicated decompressors.  Each returns the compressed file whose
expansion is written to the bare filename, given an `isfile` predicate.
`helpers.UnzipFile` (used by `Repository.DecompressIndexFiles`) probes
`.xz`, `.gz`, `.bz2`; `refrapt.UnzipFile` (used by
`refrapt.DecompressReleaseFiles`, which does not import the helpers version)
probes `.gz`, `.xz`, `.bz2`. -/

/-- `helpers.UnzipFile`: probe `.xz`, then `.gz`, then `.bz2`. -/
def helpersUnzipChoice (isfile : String → Bool) (file : String) : Option String :=
  if isfile (file ++ ".xz") then some (file ++ ".xz")
  else if isfile (file ++ ".gz") then some (file ++ ".gz")
  else if isfile (file ++ ".bz2") then some (file ++ ".bz2")
  else none

/-- `refrapt.UnzipFile`: probe `.gz`, then `.xz`, then `.bz2`. -/
def refraptUnzipChoice (isfile : String → Bool) (file : String) : Option String :=
  if isfile (file ++ ".gz") then some (file ++ ".gz")
  else if isfile (file ++ ".xz") then some (file ++ ".xz")
  else if isfile (file ++ ".bz2") then some (file ++ ".bz2")
  else none

/-! Timestamps and index collections (`classes.Timestamp`,
`classes.PackageCollection`, `classes.SourceCollection`).  An mtime is a
rational; a filesystem snapshot under the skel root is a partial map
`String → Option ℚ` from path to mtime (`isfile` holds iff the map is
`some`). -/

/-- `classes.Timestamp`: mtime before (`current`) and after (`download`) the
download pass, both initialised to 0. -/
structure Timestamp where
  current : ℚ
  download : ℚ
deriving DecidableEq, Repr

/-- `Timestamp.Modified`: the file counts as modified iff the two recorded
mtimes differ. -/
def Timestamp.modified (t : Timestamp) : Bool := decide (t.current ≠ t.download)

/-- The per-(component, architecture) file map of a collection, as an
association list from registered (sanitised) path to timestamp pair. -/
abbrev Entries := List (String × Timestamp)

/-- One step of `DetermineCurrentTimestamps`: if the file exists, record its
mtime as `current`.  The source guards on `isfile(skel/file)` but reads
`getmtime(skel/SanitiseUri(file))`; if the guard holds and the re-sanitised
path has no mtime, `getmtime` raises, modelled as `none`. -/
def detCurrentEntry (fs : String → Option ℚ) (e : String × Timestamp) :
    Option (String × Timestamp) :=
  if (fs e.1).isSome then
    match fs (SanitiseUri e.1) with
    | some m => some (e.1, { e.2 with current := m })
    | none => none
  else some e

/-- `DetermineCurrentTimestamps` over one file map. -/
def detCurrent (fs : String → Option ℚ) : Entries → Option Entries
  | [] => some []
  | e :: rest =>
    match detCurrentEntry fs e with
    | some e1 => (detCurrent fs rest).map (fun r => e1 :: r)
    | none => none

/-- `DetermineDownloadTimestamps` over one file map: existing files get their
mtime recorded as `download`; files that did not materialise are removed from
the collection.  (The source records all timestamps first and deletes the
marked files afterwards; the net result is the same.)  The same
guard-vs-getmtime path mismatch as in `detCurrentEntry` is modelled by
`none`. -/
def detDownload (fs : String → Option ℚ) : Entries → Option Entries
  | [] => some []
  | e :: rest =>
    if (fs e.1).isSome then
      match fs (SanitiseUri e.1) with
      | some m => (detDownload fs rest).map (fun r => (e.1, { e.2 with download := m }) :: r)
      | none => none
    else detDownload fs rest

/-- `classes.PackageCollection`: one file map per (component, architecture). -/
abbrev PackageCollection := List ((String × String) × Entries)

/-- `classes.SourceCollection`: one file map per component. -/
abbrev SourceCollection := List (String × Entries)

/-- `PackageCollection.DetermineCurrentTimestamps`. -/
def pcDetCurrent (fs : String → Option ℚ) : PackageCollection → Option PackageCollection
  | [] => some []
  | g :: rest =>
    match detCurrent fs g.2 with
    | some es => (pcDetCurrent fs rest).map (fun r => (g.1, es) :: r)
    | none => none

/-- `PackageCollection.DetermineDownloadTimestamps`. -/
def pcDetDownload (fs : String → Option ℚ) : PackageCollection → Option PackageCollection
  | [] => some []
  | g :: rest =>
    match detDownload fs g.2 with
    | some es => (pcDetDownload fs rest).map (fun r => (g.1, es) :: r)
    | none => none

/-! `os.path.splitext(file)[0]` (POSIX): strip the extension starting at the
last dot of the last path component, provided some earlier character of that
component is not a dot. -/

/-- The last `/`-separated component of a path. -/
def lastComponent (cs : List Char) : List Char :=
  (cs.reverse.takeWhile (fun c => c != '/')).reverse

/-- Length of the extension (including its dot) that `os.path.splitext` would
split off a basename, or 0 when there is none. -/
def extLen (basename : List Char) : Nat :=
  let revTail := basename.reverse.takeWhile (fun c => c != '.')
  if revTail.length = basename.length then 0
  else if (basename.take (basename.length - (revTail.length + 1))).any (fun c => c != '.') then
    revTail.length + 1
  else 0

/-- `os.path.splitext(s)[0]`. -/
def splitExtBase (s : String) : String :=
  String.mk (s.data.take (s.data.length - extLen (lastComponent s.data)))

/-- The per-file test of `_GetFiles(modified)`: `Timestamp.Modified` (or its
negation), overridden by `Settings.PreviousRunInterrupted()` (modelled as
`prev`; `settings.py` exposes this flag as `Settings._force`) or
`Settings.ForceUpdate()` (modelled as `force`). -/
def selectEntry (prev force modified : Bool) (t : Timestamp) : Bool :=
  if modified then t.modified || prev || force
  else !t.modified || prev || force

/-- The inner loop of `_GetFiles`: selected files with the extension
stripped by `os.path.splitext`. -/
def getFilesEntries (prev force modified : Bool) (es : Entries) : List String :=
  es.filterMap (fun e =>
    if selectEntry prev force modified e.2 then some (splitExtBase e.1) else none)

/-- The full nested loop of `PackageCollection._GetFiles` before
deduplication. -/
def collectPc (prev force modified : Bool) : PackageCollection → List String
  | [] => []
  | g :: rest => getFilesEntries prev force modified g.2 ++ collectPc prev force modified rest

/-- `PackageCollection._GetFiles`: collected files, `list(set(...))`
deduplicated. -/
def pcGetFiles (prev force modified : Bool) (c : PackageCollection) : List String :=
  (collectPc prev force modified c).dedup

/-- The full loop of `SourceCollection._GetFiles` before deduplication. -/
def collectSc (prev force modified : Bool) : SourceCollection → List String
  | [] => []
  | g :: rest => getFilesEntries prev force modified g.2 ++ collectSc prev force modified rest

/-- `SourceCollection._GetFiles`. -/
def scGetFiles (prev force modified : Bool) (s : SourceCollection) : List String :=
  (collectSc prev force modified s).dedup

/-- All registered files of a `PackageCollection`, in registration order. -/
def pcAllEntries : PackageCollection → Entries
  | [] => []
  | g :: rest => g.2 ++ pcAllEntries rest

/-- All registered files of a `SourceCollection`, in registration order. -/
def scAllEntries : SourceCollection → Entries
  | [] => []
  | g :: rest => g.2 ++ scAllEntries rest

/-! The sweep stage (`refrapt.Clean` and its unconditional invocation from
`refrapt.main`). -/

/-- The per-source facts `Clean` consults: the URI, the per-repository
`clean` opt-out, and whether any of its indices were modified. -/
structure CSource where
  uri : String
  clean : Bool
  modified : Bool
deriving DecidableEq, Repr

/-- The walk-and-filter loop of `Clean`: for each URI, every file walked under
`SanitiseUri(uri)` whose normalised path is not in `requiredFiles` and which is
not a symlink. -/
def walkItems (walkFiles : String → List String) (isLink : String → Bool)
    (normPath : String → String) (requiredFiles : List String) :
    List String → List String
  | [] => []
  | uri :: rest =>
    ((walkFiles (SanitiseUri uri)).filter
      (fun x => !(requiredFiles.contains (normPath x)) && !(isLink x))) ++
    walkItems walkFiles isLink normPath requiredFiles rest

/-- `refrapt.Clean`: the list of files the sweep deletes.  `walkFiles d` is
the `os.walk` file listing under directory `d`; `requiredFiles` is the
deduplicated `filesToKeep` (including the unmodified-index pass);
`testMode` is `Settings.Test()`.  Sources with `clean` unset or with no
modified index contribute no URIs; with no eligible source, or no eligible
item, or in test mode, nothing is deleted. -/
def cleanDeletions (walkFiles : String → List String) (isLink : String → Bool)
    (normPath : String → String) (requiredFiles : List String) (testMode : Bool)
    (sources : List CSource) : List String :=
  let cleanSources := sources.filter (fun s => s.clean && s.modified)
  if cleanSources.isEmpty then []
  else
    let uris := (cleanSources.map (fun s => s.uri)).dedup
    let items := walkItems walkFiles isLink normPath requiredFiles uris
    if items.isEmpty then []
    else if testMode then []
    else items

/-- Stage 6 of `refrapt.main` invokes `Clean()` unconditionally: the
`disableClean` option (`Settings.CleanEnabled`) is never consulted anywhere
in the pipeline, so it is an unused argument here. -/
def mainCleanStage (disableClean : Bool) (walkFiles : String → List String)
    (isLink : String → Bool) (normPath : String → String)
    (requiredFiles : List String) (testMode : Bool) (sources : List CSource) :
    List String :=
  cleanDeletions walkFiles isLink normPath requiredFiles testMode sources

/-! The Packages/Sources paragraph parser (`classes.Index.GetPackages`). -/

/-- Python `str.strip()`: trim whitespace from both ends. -/
def pyStrip (s : String) : String :=
  String.mk (((s.data.dropWhile Char.isWhitespace).reverse.dropWhile Char.isWhitespace).reverse)

/-- The regex class `[\w\-]` of the field-key pattern. -/
def isWordDash (c : Char) : Bool := isWordChar c || c == '-'

/-- Whether `re.search(r"^([\w\-]+:)", line)` matches: a nonempty leading run
of word-or-dash characters immediately followed by a colon. -/
def matchFieldKey (l : List Char) : Bool :=
  !(l.takeWhile isWordDash).isEmpty && ((l.dropWhile isWordDash).headD ' ' == ':')

/-- The field names `Index.GetPackages` retains. -/
def keywords : List String :=
  ["Filename", "MD5sum", "SHA1", "SHA256", "Size", "Files", "Directory"]

/-- Python dict lookup on an insertion-ordered association list. -/
def dictGet (k : String) : List (String × String) → Option String
  | [] => none
  | (k1, v) :: rest => if k1 = k then some v else dictGet k rest

/-- Python dict assignment: overwrite in place, else append. -/
def dictSet (k v : String) : List (String × String) → List (String × String)
  | [] => [(k, v)]
  | (k1, v1) :: rest => if k1 = k then (k1, v) :: rest else (k1, v1) :: dictSet k v rest

/-- Parser state of `Index.GetPackages`: emitted paragraphs, the paragraph
being built, and the current field key (`None` for dropped fields). -/
structure PPState where
  packages : List (List (String × String))
  package : List (String × String)
  key : Option String
deriving DecidableEq, Repr

/-- The field-line branch of `GetPackages`: `key = line.split(":")[0]`; a
retained key stores `line.split(":")[1].strip()` (an `IndexError` — no colon
in the line — is `none`); any other key is dropped. -/
def fieldLineStep (st : PPState) (line : String) : Option PPState :=
  let k := String.mk ((pySplitChar ':' line.data).headD [])
  if k ∈ keywords then
    match (pySplitChar ':' line.data).get? 1 with
    | some v => some { st with package := dictSet k (pyStrip (String.mk v)) st.package,
                               key := some k }
    | none => none
  else some { st with key := none }

/-- The continuation branch of `GetPackages`:
`package[key] += "\n" + line.strip()` (a `KeyError` is `none`). -/
def contLineStep (st : PPState) (line : String) (k : String) : Option PPState :=
  match dictGet k st.package with
  | some v => some { st with package := dictSet k (v ++ "\n" ++ pyStrip line) st.package }
  | none => none

/-- One line of `Index.GetPackages`.  An empty line emits the current
paragraph (the key is *not* reset); otherwise a line that does not begin a
field while a truthy key is current is a continuation; otherwise it is a
field line. -/
def ppStep (st : PPState) (line : String) : Option PPState :=
  if line = "" then
    some { packages := st.packages ++ [st.package], package := [], key := st.key }
  else
    match st.key with
    | some k =>
      if !matchFieldKey line.data && k ≠ "" then contLineStep st line k
      else fieldLineStep st line
    | none => fieldLineStep st line

/-- Run `GetPackages` over the remaining lines from a given state. -/
def runLines (st : PPState) : List String → Option PPState
  | [] => some st
  | l :: rest =>
    match ppStep st l with
    | some st1 => runLines st1 rest
    | none => none

/-- `Index.GetPackages` on the (already `rstrip`-ped) lines of the file: the
emitted paragraphs.  Note the loop appends a paragraph only on an empty line;
after the loop the `package` in progress is *not* appended. -/
def getPackages (lines : List String) : Option (List (List (String × String))) :=
  (runLines ⟨[], [], none⟩ lines).map (fun st => st.packages)

/-- The number of empty lines of the input. -/
def countBlank : List String → Nat
  | [] => 0
  | l :: rest => (if l = "" then 1 else 0) + countBlank rest

/-! Lemmas about the sanitiser. -/

/-- The port-stripping scan never uncovers a leading digit: if its output
starts with a digit, so did its input (and the flag was off). -/
theorem headIsDigit_removePortAux :
    ∀ (l : List Char) (b : Bool), headIsDigit l = false ∨ b = true →
      headIsDigit (removePortAux b l) = false := by
  intro l
  induction l with
  | nil => intro b _; simp [removePortAux, headIsDigit]
  | cons c rest ih =>
    intro b h
    simp only [removePortAux]
    split_ifs with h1 h2
    · exact ih true (Or.inr rfl)
    · exact ih true (Or.inr rfl)
    · show c.isDigit = false
      rcases h with h | h
      · simpa [headIsDigit] using h
      · subst h
        simp only [Bool.true_and] at h1
        simpa using h1

/-- The output of the port-stripping scan never contains a colon followed by
a digit. -/
theorem colonDigitFree_removePortAux :
    ∀ (l : List Char) (b : Bool), colonDigitFree (removePortAux b l) = true := by
  intro l
  induction l with
  | nil => intro b; simp [removePortAux, colonDigitFree]
  | cons c rest ih =>
    intro b
    simp only [removePortAux]
    split_ifs with h1 h2
    · exact ih true
    · exact ih true
    · simp only [colonDigitFree, Bool.and_eq_true, Bool.not_eq_true']
      refine ⟨?_, ih false⟩
      by_cases hc : (c == ':') = true
      · have hrest : headIsDigit rest = false := by
          by_contra hr
          exact h2 (by simp [hc, Bool.not_eq_true] at hr ⊢; simp [hr])
        have := headIsDigit_removePortAux rest false (Or.inl hrest)
        simp [hc, this]
      · simp [Bool.not_eq_true] at hc
        simp [hc]

/-- The port-stripping scan is the identity on strings already free of
colon-digit occurrences. -/
theorem removePortAux_eq_self :
    ∀ (l : List Char), colonDigitFree l = true → removePortAux false l = l := by
  intro l
  induction l with
  | nil => intro _; rfl
  | cons c rest ih =>
    intro h
    simp only [colonDigitFree, Bool.and_eq_true, Bool.not_eq_true'] at h
    simp only [removePortAux, Bool.false_and, Bool.false_eq_true, if_false, h.1, if_neg]
    · exact congrArg (c :: ·) (ih h.2)

/-- Stripping ports twice is the same as stripping them once. -/
theorem removePort_idem (l : List Char) : removePort (removePort l) = removePort l :=
  removePortAux_eq_self _ (colonDigitFree_removePortAux l false)

/-- Scheme stripping is the identity when no leading scheme matches. -/
theorem removeScheme_eq_self (l : List Char) (h : startsWithScheme l = false) :
    removeScheme l = l := by
  simp [removeScheme, h]

/-- C1, counterexample: `SanitiseUri` is *not* idempotent on every string.
On `"a://b://c"` the first application strips only the leading `a://`, leaving
`"b://c"`, which a second application strips again to `"c"`. -/
theorem C1_counterexample :
    SanitiseUri (SanitiseUri "a://b://c") ≠ SanitiseUri "a://b://c" := by decide

/-- C1, amended: `SanitiseUri` is idempotent on every input whose sanitised
form does not itself begin with a scheme prefix (a word-character run followed
by `://`); port stripping or a repeated scheme can expose such a prefix, on
which a second application strips further. -/
theorem C1_amended (s : String)
    (h : startsWithScheme (SanitiseUri s).data = false) :
    SanitiseUri (SanitiseUri s) = SanitiseUri s := by
  have h2 : startsWithScheme (removePort (removeScheme s.data)) = false := h
  show String.mk (removePort (removeScheme (removePort (removeScheme s.data)))) =
    String.mk (removePort (removeScheme s.data))
  rw [removeScheme_eq_self _ h2, removePort_idem]

/-- Witness for C1: a concrete URI with scheme and port on which the amended
idempotence theorem applies. -/
theorem C1_amended_witness :
    startsWithScheme (SanitiseUri "http://gb.archive.ubuntu.com/ubuntu:8080/x").data = false ∧
    SanitiseUri (SanitiseUri "http://gb.archive.ubuntu.com/ubuntu:8080/x") =
      SanitiseUri "http://gb.archive.ubuntu.com/ubuntu:8080/x" :=
  ⟨by decide, C1_amended "http://gb.archive.ubuntu.com/ubuntu:8080/x" (by decide)⟩

/-- C2, counterexample: the output of `SanitiseUri` *can* contain `://`.
Only a leading match of `^(\w+)://` is removed, so the second separator of
`"a://b://c"` survives into the output `"b://c"`. -/
theorem C2_counterexample :
    containsSub "://".data (SanitiseUri "a://b://c").data = true := by decide

/-- C2, amended: for every input string the output of `SanitiseUri` contains
no occurrence of a colon immediately followed by one or more digits; the
`://`-freedom half of the claim fails (see the counterexample). -/
theorem C2_amended (s : String) : colonDigitFree (SanitiseUri s).data = true :=
  colonDigitFree_removePortAux (removeScheme s.data) false

/-- C3: evaluation at the failing input.  The line `"debian http://a b c"`
has first token `"debian"`, which is neither `deb` nor `deb-src`, yet it
passes the `startswith("deb")` filter of `GetSources` and
`Repository.__init__` parses it without failure, yielding a Binary
descriptor (the type merely defaults to Binary). -/
theorem C3_eval :
    getSourcesSelects "debian http://a b c" = true ∧
    parseRepository "debian http://a b c" "amd64" =
      some ⟨RepositoryType.Bin, ["amd64"], "http://a", "b", ["c"], true⟩ := by decide

/-- C6: evaluation at the failing input.  With both `Packages.xz` and
`Packages.gz` present, the decompressor copy in `refrapt.py` (the one
`DecompressReleaseFiles` invokes) expands `Packages.gz`, while the
documented decompressor in `helpers.py` expands `Packages.xz` as the claim
states. -/
theorem C6_eval :
    refraptUnzipChoice (fun f => f == "Packages.xz" || f == "Packages.gz") "Packages" =
      some "Packages.gz" ∧
    helpersUnzipChoice (fun f => f == "Packages.xz" || f == "Packages.gz") "Packages" =
      some "Packages.xz" := by decide

/-- C7: evaluation at the failing input.  With `disableClean = true`, a
single clean-enabled modified source and an orphan file on disk, the sweep
stage still deletes the orphan, and the `disableClean` flag makes no
difference to the deletion list. -/
theorem C7_eval :
    mainCleanStage true (fun d => if d = "u" then ["u/orphan", "u/keep"] else [])
        (fun _ => false) (fun s => s) ["u/keep"] false
        [⟨"http://u", true, true⟩] = ["u/orphan"] ∧
    mainCleanStage false (fun d => if d = "u" then ["u/orphan", "u/keep"] else [])
        (fun _ => false) (fun s => s) ["u/keep"] false
        [⟨"http://u", true, true⟩] = ["u/orphan"] := by decide

/-- C4, counterexample: a line carrying a distribution but no components
parses to a descriptor with nonflat distribution `"focal"` and *empty*
components, so flatness (distribution = "") is not equivalent to emptiness of
the components list. -/
theorem C4_counterexample :
    parseRepository "deb http://u focal" "amd64" =
      some ⟨RepositoryType.Bin, ["amd64"], "http://u", "focal", [], true⟩ ∧
    ¬ ((("focal" : String) = "") ↔ (([] : List String) = [])) := by
  exact ⟨by decide, by simp⟩

/-- Splitting always yields at least one (possibly empty) segment. -/
theorem pySplitChar_ne_nil (sep : Char) (l : List Char) : pySplitChar sep l ≠ [] := by
  cases l with
  | nil => simp [pySplitChar]
  | cons c rest =>
    simp only [pySplitChar]
    split_ifs <;> simp

/-- Tokens of a configuration line are nonempty (empty segments are filtered
out). -/
theorem mem_tokensOf_ne_nil {l : List Char} {t : List Char} (h : t ∈ tokensOf l) :
    t ≠ [] := by
  have h2 := (List.mem_filter.mp h).2
  simpa using h2

/-- The architectures list is never empty: a split yields at least one
segment and the default branch is a singleton. -/
theorem archsOf_ne_nil (lineC : List Char) (defaultArch : String) :
    archsOf lineC defaultArch ≠ [] := by
  unfold archsOf
  split_ifs
  · cases hl : parseArchList lineC with
    | nil => exact absurd hl (pySplitChar_ne_nil _ _)
    | cons a as => simp [hl]
  · simp

/-- C4, amended: every descriptor `Repository.__init__` produces has a
non-empty architectures list, and a flat descriptor (empty distribution) has
an empty components list; the converse direction of the claimed equivalence
fails (see the counterexample: a distribution with no components). -/
theorem C4_amended (line arch : String) (r : Repository)
    (h : parseRepository line arch = some r) :
    r.architectures ≠ [] ∧ (r.distribution = "" → r.components = []) := by
  have hkey : ∀ (n : Nat) (d : List Char),
      (tokensOf (stripComment line.data)).get? n = some d → String.mk d ≠ "" := by
    intro n d hget hdist
    exact mem_tokensOf_ne_nil (List.get?_mem hget) (by simpa [String.ext_iff] using hdist)
  unfold parseRepository at h
  dsimp only at h
  split at h
  · exact absurd h (by simp)
  · split at h
    · exact absurd h (by simp)
    · split at h
      · split_ifs at h with hd
        · obtain rfl := Option.some.inj h
          exact ⟨archsOf_ne_nil _ _, fun hdist => absurd hdist (hkey _ _ (by assumption))⟩
        · obtain rfl := Option.some.inj h
          exact ⟨archsOf_ne_nil _ _, fun _ => rfl⟩
      · obtain rfl := Option.some.inj h
        exact ⟨archsOf_ne_nil _ _, fun _ => rfl⟩

/-- Witness for C4: the amended invariant evaluated on a concrete valid
line. -/
theorem C4_amended_witness :
    (["amd64"] : List String) ≠ [] ∧ (("focal" : String) = "" → (["main"] : List String) = []) :=
  C4_amended "deb http://u focal main" "amd64"
    ⟨RepositoryType.Bin, ["amd64"], "http://u", "focal", ["main"], true⟩ (by decide)

/-- A field line never changes the emitted-paragraph list. -/
theorem fieldLineStep_packages {st : PPState} {line : String} {st1 : PPState}
    (h : fieldLineStep st line = some st1) : st1.packages = st.packages := by
  unfold fieldLineStep at h
  dsimp only at h
  split_ifs at h
  · split at h
    · obtain rfl := Option.some.inj h; rfl
    · exact absurd h (by simp)
  · obtain rfl := Option.some.inj h; rfl

/-- A continuation line never changes the emitted-paragraph list. -/
theorem contLineStep_packages {st : PPState} {line : String} {k : String} {st1 : PPState}
    (h : contLineStep st line k = some st1) : st1.packages = st.packages := by
  unfold contLineStep at h
  split at h
  · obtain rfl := Option.some.inj h; rfl
  · exact absurd h (by simp)

/-- One parser step appends the open paragraph exactly on an empty line. -/
theorem ppStep_packages {st : PPState} {line : String} {st1 : PPState}
    (h : ppStep st line = some st1) :
    st1.packages = if line = "" then st.packages ++ [st.package] else st.packages := by
  unfold ppStep at h
  split_ifs at h with hline
  · obtain rfl := Option.some.inj h
    simp [hline]
  · rw [if_neg hline]
    split at h
    · split_ifs at h
      · exact contLineStep_packages h
      · exact fieldLineStep_packages h
    · exact fieldLineStep_packages h

/-- Running the parser adds one emitted paragraph per empty line. -/
theorem runLines_count :
    ∀ (lines : List String) (st st1 : PPState), runLines st lines = some st1 →
      st1.packages.length = st.packages.length + countBlank lines := by
  intro lines
  induction lines with
  | nil =>
    intro st st1 h
    obtain rfl := Option.some.inj h
    simp [countBlank]
  | cons l rest ih =>
    intro st st1 h
    unfold runLines at h
    cases hstep : ppStep st l with
    | none => rw [hstep] at h; exact absurd h (by simp)
    | some st2 =>
      rw [hstep] at h
      rw [ih st2 st1 h, ppStep_packages hstep]
      by_cases hl : l = "" <;> simp [hl, countBlank] <;> omega

/-- C5, amended: `Index.GetPackages` emits exactly one paragraph per empty
input line; in particular a trailing paragraph that is not followed by a
terminating blank line is *dropped*, not emitted (see the counterexample). -/
theorem C5_amended (lines : List String) (ps : List (List (String × String)))
    (h : getPackages lines = some ps) : ps.length = countBlank lines := by
  unfold getPackages at h
  cases hr : runLines ⟨[], [], none⟩ lines with
  | none => rw [hr] at h; exact absurd h (by simp)
  | some st =>
    rw [hr] at h
    obtain rfl : st.packages = ps := Option.some.inj h
    simpa using runLines_count lines ⟨[], [], none⟩ st hr

/-- Witness for C5: on input with one terminated paragraph, exactly one
paragraph is emitted. -/
theorem C5_amended_witness :
    ([[("Filename", "f")]] : List (List (String × String))).length =
      countBlank ["Filename: f", ""] :=
  C5_amended ["Filename: f", ""] [[("Filename", "f")]] (by decide)

/-- C5, counterexample: a non-empty index whose last paragraph is not
followed by a blank line loses that paragraph — `GetPackages` returns *no*
paragraphs at all for a two-line file with no blank line. -/
theorem C5_counterexample :
    getPackages ["Package: x", "Filename: pool/p.deb"] = some [] ∧
    (["Package: x", "Filename: pool/p.deb"] : List String) ≠ [] ∧
    ("Filename: pool/p.deb" : String) ≠ "" := by decide

/-- `takeWhile` passes over a fully-satisfying prefix. -/
theorem takeWhile_all_append (p : Char → Bool) (l1 l2 : List Char)
    (h : l1.all p = true) :
    (l1 ++ l2).takeWhile p = l1 ++ l2.takeWhile p := by
  induction l1 with
  | nil => simp
  | cons c rest ih =>
    simp only [List.all_cons, Bool.and_eq_true] at h
    simp [List.takeWhile_cons, h.1, ih h.2]

/-- `dropWhile` drops a fully-satisfying prefix. -/
theorem dropWhile_all_append (p : Char → Bool) (l1 l2 : List Char)
    (h : l1.all p = true) :
    (l1 ++ l2).dropWhile p = l2.dropWhile p := by
  induction l1 with
  | nil => simp
  | cons c rest ih =>
    simp only [List.all_cons, Bool.and_eq_true] at h
    simp [List.dropWhile_cons, h.1, ih h.2]

/-- Splitting at the first separator: a separator-free prefix becomes the
first segment. -/
theorem pySplitChar_prefix (sep : Char) (l1 l2 : List Char)
    (h : l1.contains sep = false) :
    pySplitChar sep (l1 ++ sep :: l2) = l1 :: pySplitChar sep l2 := by
  induction l1 with
  | nil => simp [pySplitChar]
  | cons c rest ih =>
    simp only [List.contains_cons, Bool.or_eq_false_iff] at h
    have hcne : c ≠ sep := by
      intro hcc
      subst hcc
      simp at h
    show pySplitChar sep (c :: (rest ++ sep :: l2)) = (c :: rest) :: pySplitChar sep l2
    simp only [pySplitChar, ih h.2]
    rw [if_neg (by simp [hcne])]
    simp

/-- A line beginning with a word-dash key followed by a colon matches the
field-key regex. -/
theorem matchFieldKey_key_colon (k rest : List Char)
    (hall : k.all isWordDash = true) (hne : k ≠ []) :
    matchFieldKey (k ++ ':' :: rest) = true := by
  unfold matchFieldKey
  rw [takeWhile_all_append _ _ _ hall, dropWhile_all_append _ _ _ hall]
  have h1 : List.takeWhile isWordDash (':' :: rest) = [] := by
    simp [List.takeWhile_cons, isWordDash, isWordChar]
  have h2 : List.dropWhile isWordDash (':' :: rest) = ':' :: rest := by
    simp [List.dropWhile_cons, isWordDash, isWordChar]
  rw [h1, h2]
  cases k with
  | nil => exact absurd rfl hne
  | cons a as => simp

/-- Looking up a key just stored yields the stored value. -/
theorem dictGet_dictSet (k v : String) (d : List (String × String)) :
    dictGet k (dictSet k v d) = some v := by
  induction d with
  | nil => simp [dictSet, dictGet]
  | cons e rest ih =>
    obtain ⟨k1, v1⟩ := e
    by_cases hk : k1 = k
    · simp [dictSet, dictGet, hk]
    · simp [dictSet, dictGet, hk, ih]

/-- C10: for a retained field line whose value contains a further colon,
`Index.GetPackages` stores only the (stripped) text between the first and the
second colon of the line; everything from the second colon onward is
dropped.  Here the line is `k ++ ":" ++ v1 ++ ":" ++ v2` with `k` a retained
keyword and `v1` colon-free. -/
theorem C10_theorem (st : PPState) (k v1 v2 : String)
    (hk : k ∈ keywords)
    (hv1 : v1.data.contains ':' = false) :
    ppStep st (k ++ ":" ++ v1 ++ ":" ++ v2) =
      some { st with package := dictSet k (pyStrip v1) st.package, key := some k } ∧
    dictGet k (dictSet k (pyStrip v1) st.package) = some (pyStrip v1) := by
  refine ⟨?_, dictGet_dictSet _ _ _⟩
  obtain ⟨hall, hcol, hne⟩ :
      k.data.all isWordDash = true ∧ k.data.contains ':' = false ∧ k.data ≠ [] := by
    fin_cases hk <;> exact ⟨by decide, by decide, by decide⟩
  have hdata : (k ++ ":" ++ v1 ++ ":" ++ v2).data =
      k.data ++ ':' :: (v1.data ++ ':' :: v2.data) := by
    show ((((k.data ++ ":".data) ++ v1.data) ++ ":".data) ++ v2.data) =
      k.data ++ ':' :: (v1.data ++ ':' :: v2.data)
    simp
  have hmatch : matchFieldKey (k ++ ":" ++ v1 ++ ":" ++ v2).data = true := by
    rw [hdata]; exact matchFieldKey_key_colon _ _ hall hne
  have hnonempty : (k ++ ":" ++ v1 ++ ":" ++ v2) ≠ "" := by
    intro hc
    have : (k ++ ":" ++ v1 ++ ":" ++ v2).data = [] := by rw [hc]
    rw [hdata] at this
    exact hne (List.append_eq_nil.mp this).1
  have hsplit : pySplitChar ':' (k ++ ":" ++ v1 ++ ":" ++ v2).data =
      k.data :: v1.data :: pySplitChar ':' v2.data := by
    rw [hdata, pySplitChar_prefix _ _ _ hcol, pySplitChar_prefix _ _ _ hv1]
  have hfield : fieldLineStep st (k ++ ":" ++ v1 ++ ":" ++ v2) =
      some { st with package := dictSet k (pyStrip v1) st.package, key := some k } := by
    unfold fieldLineStep
    rw [hsplit]
    simp only [List.headD_cons, List.get?]
    have heta : String.mk k.data = k := rfl
    have heta1 : String.mk v1.data = v1 := rfl
    rw [heta, heta1, if_pos hk]
  unfold ppStep
  rw [if_neg hnonempty]
  cases st.key with
  | none => exact hfield
  | some k0 =>
    rw [hmatch]
    simp only [Bool.not_true, Bool.false_and, Bool.false_eq_true, if_false, if_neg]
    exact hfield

/-- Witness for C10: the line `Filename: pool/a:b.deb` stores value
`pool/a`; the `:b.deb` tail is dropped. -/
theorem C10_witness :
    ppStep ⟨[], [], none⟩ ("Filename" ++ ":" ++ " pool/a" ++ ":" ++ "b.deb") =
      some { (⟨[], [], none⟩ : PPState) with
               package := dictSet "Filename" (pyStrip " pool/a") [],
               key := some "Filename" } ∧
    dictGet "Filename" (dictSet "Filename" (pyStrip " pool/a") []) =
      some (pyStrip " pool/a") :=
  C10_theorem ⟨[], [], none⟩ "Filename" " pool/a" "b.deb" (by decide) (by decide)

/-- What one current-timestamp step can do: the path and download stamp are
unchanged; the current stamp either stays (file absent before the fetch) or
becomes the recorded pre-fetch mtime. -/
theorem detCurrentEntry_spec (fs1 : String → Option ℚ) (e e1 : String × Timestamp)
    (h : detCurrentEntry fs1 e = some e1) :
    e1.1 = e.1 ∧ e1.2.download = e.2.download ∧
      (e1.2.current = e.2.current ∨ fs1 (SanitiseUri e.1) = some e1.2.current) := by
  unfold detCurrentEntry at h
  split_ifs at h with hf
  · cases hm : fs1 (SanitiseUri e.1) with
    | none => rw [hm] at h; exact absurd h (by simp)
    | some m =>
      rw [hm] at h
      obtain rfl := Option.some.inj h
      refine ⟨rfl, rfl, Or.inr ?_⟩
      simpa using hm
  · obtain rfl := Option.some.inj h
    exact ⟨rfl, rfl, Or.inl rfl⟩

/-- The C8 invariant at the level of one file map: after the two timestamp
passes over fresh entries, with positive post-fetch mtimes that are not older
than pre-fetch mtimes, every surviving entry is either unmodified with a
positive stamp or strictly newer, and only files existing after the fetch
survive. -/
theorem c8_entries (fs1 fs2 : String → Option ℚ) :
    ∀ (es es1 es2 : Entries),
      (∀ e ∈ es, e.2 = (⟨0, 0⟩ : Timestamp)) →
      detCurrent fs1 es = some es1 →
      detDownload fs2 es1 = some es2 →
      (∀ p m, fs2 p = some m → 0 < m) →
      (∀ p m1 m2, fs1 p = some m1 → fs2 p = some m2 → m1 ≤ m2) →
      ∀ e ∈ es2,
        ((e.2.current = e.2.download ∧ 0 < e.2.download) ∨ e.2.current < e.2.download) ∧
        (fs2 e.1).isSome = true := by
  intro es
  induction es with
  | nil =>
    intro es1 es2 h0 h1 h2 hpos hmono
    obtain rfl : ([] : Entries) = es1 := by simpa [detCurrent] using h1
    obtain rfl : ([] : Entries) = es2 := by simpa [detDownload] using h2
    intro e he
    exact absurd he (by simp)
  | cons e0 rest ih =>
    intro es1 es2 h0 h1 h2 hpos hmono
    unfold detCurrent at h1
    cases hce : detCurrentEntry fs1 e0 with
    | none => rw [hce] at h1; exact absurd h1 (by simp)
    | some e1 =>
      rw [hce] at h1
      cases hrest : detCurrent fs1 rest with
      | none => rw [hrest] at h1; exact absurd h1 (by simp)
      | some rest1 =>
        rw [hrest] at h1
        obtain rfl : e1 :: rest1 = es1 := by simpa using h1
        unfold detDownload at h2
        split_ifs at h2 with hf2
        · cases hm : fs2 (SanitiseUri e1.1) with
          | none => rw [hm] at h2; exact absurd h2 (by simp)
          | some m =>
            rw [hm] at h2
            cases hrd : detDownload fs2 rest1 with
            | none => rw [hrd] at h2; exact absurd h2 (by simp)
            | some rest2 =>
              rw [hrd] at h2
              obtain rfl : (e1.1, { e1.2 with download := m }) :: rest2 = es2 := by
                simpa using h2
              intro e he
              rcases List.mem_cons.mp he with rfl | hmem
              · obtain ⟨hpath, _, hcur⟩ := detCurrentEntry_spec fs1 e0 e1 hce
                have hm0 : 0 < m := hpos _ _ hm
                refine ⟨?_, ?_⟩
                · rcases hcur with hcur | hcur
                  · have hz : e0.2 = (⟨0, 0⟩ : Timestamp) := h0 e0 (by simp)
                    right
                    show e1.2.current < m
                    rw [hcur, hz]
                    exact hm0
                  · have hle : e1.2.current ≤ m := by
                      refine hmono (SanitiseUri e0.1) _ _ hcur ?_
                      rw [← hpath]
                      exact hm
                    rcases lt_or_eq_of_le hle with hlt | heq
                    · exact Or.inr hlt
                    · exact Or.inl ⟨heq, hm0⟩
                · simpa using hf2
              · exact ih rest1 rest2 (fun x hx => h0 x (by simp [hx])) hrest hrd hpos hmono e hmem
        · exact ih rest1 es2 (fun x hx => h0 x (by simp [hx])) hrest h2 hpos hmono

/-- The C8 invariant lifted over all (component, architecture) groups. -/
theorem c8_groups (fs1 fs2 : String → Option ℚ) :
    ∀ (c c1 c2 : PackageCollection),
      (∀ g ∈ c, ∀ e ∈ g.2, e.2 = (⟨0, 0⟩ : Timestamp)) →
      pcDetCurrent fs1 c = some c1 →
      pcDetDownload fs2 c1 = some c2 →
      (∀ p m, fs2 p = some m → 0 < m) →
      (∀ p m1 m2, fs1 p = some m1 → fs2 p = some m2 → m1 ≤ m2) →
      ∀ g ∈ c2, ∀ e ∈ g.2,
        ((e.2.current = e.2.download ∧ 0 < e.2.download) ∨ e.2.current < e.2.download) ∧
        (fs2 e.1).isSome = true := by
  intro c
  induction c with
  | nil =>
    intro c1 c2 h0 h1 h2 hpos hmono
    obtain rfl : ([] : PackageCollection) = c1 := by simpa [pcDetCurrent] using h1
    obtain rfl : ([] : PackageCollection) = c2 := by simpa [pcDetDownload] using h2
    intro g hg
    exact absurd hg (by simp)
  | cons g0 rest ih =>
    intro c1 c2 h0 h1 h2 hpos hmono
    unfold pcDetCurrent at h1
    cases hce : detCurrent fs1 g0.2 with
    | none => rw [hce] at h1; exact absurd h1 (by simp)
    | some es1 =>
      rw [hce] at h1
      cases hrest : pcDetCurrent fs1 rest with
      | none => rw [hrest] at h1; exact absurd h1 (by simp)
      | some rest1 =>
        rw [hrest] at h1
        obtain rfl : (g0.1, es1) :: rest1 = c1 := by simpa using h1
        unfold pcDetDownload at h2
        cases hdd : detDownload fs2 es1 with
        | none => rw [hdd] at h2; exact absurd h2 (by simp)
        | some es2 =>
          rw [hdd] at h2
          cases hrd : pcDetDownload fs2 rest1 with
          | none => rw [hrd] at h2; exact absurd h2 (by simp)
          | some rest2 =>
            rw [hrd] at h2
            obtain rfl : ((g0.1, es2)) :: rest2 = c2 := by simpa using h2
            intro g hg e he
            rcases List.mem_cons.mp hg with rfl | hmem
            · exact c8_entries fs1 fs2 g0.2 es1 es2 (h0 g0 (by simp)) hce hdd hpos hmono e he
            · exact ih rest1 rest2 (fun x hx => h0 x (by simp [hx])) hrest hrd hpos hmono g hmem e he

/-- C8: for every index collection freshly built by `Add`, after
`DetermineCurrentTimestamps` and then `DetermineDownloadTimestamps` (over
filesystem snapshots whose mtimes are positive and do not decrease between
the two passes), every file still registered satisfies either
current = download > 0 (unmodified) or current < download (modified), and
every surviving registered file exists under the staging root after the
download pass (files that do not exist have been removed). -/
theorem C8_theorem (fs1 fs2 : String → Option ℚ) (c c1 c2 : PackageCollection)
    (hfresh : ∀ g ∈ c, ∀ e ∈ g.2, e.2 = (⟨0, 0⟩ : Timestamp))
    (h1 : pcDetCurrent fs1 c = some c1)
    (h2 : pcDetDownload fs2 c1 = some c2)
    (hpos : ∀ p m, fs2 p = some m → 0 < m)
    (hmono : ∀ p m1 m2, fs1 p = some m1 → fs2 p = some m2 → m1 ≤ m2) :
    c2.all (fun g => g.2.all (fun e =>
      ((e.2.current == e.2.download && decide (0 < e.2.download)) ||
        decide (e.2.current < e.2.download)) && (fs2 e.1).isSome)) = true := by
  have h := c8_groups fs1 fs2 c c1 c2 hfresh h1 h2 hpos hmono
  rw [List.all_eq_true]
  intro g hg
  rw [List.all_eq_true]
  intro e he
  obtain ⟨hdisj, hex⟩ := h g hg e he
  rcases hdisj with ⟨heq, hpos2⟩ | hlt
  · simp [heq, hpos2, hex]
  · simp [hlt, hex]

/-- Witness for C8: one group with one file that exists at both passes
(mtime 5 then 7) and one that vanished; after the passes only the first
survives, modified. -/
theorem C8_witness :
    ([(( ("main", "amd64") : String × String),
        [("u/Packages.xz", (⟨5, 7⟩ : Timestamp))])] : PackageCollection).all
      (fun g => g.2.all (fun e =>
        ((e.2.current == e.2.download &&
            decide (0 < e.2.download)) ||
          decide (e.2.current < e.2.download)) &&
        ((fun p => if p = "u/Packages.xz" then some (7 : ℚ) else none) e.1).isSome)) = true := by
  refine C8_theorem (fun p => if p = "u/Packages.xz" then some (5 : ℚ) else none)
    (fun p => if p = "u/Packages.xz" then some (7 : ℚ) else none)
    [((("main", "amd64") : String × String),
      [("u/Packages.xz", (⟨0, 0⟩ : Timestamp)), ("u/Other", (⟨0, 0⟩ : Timestamp))])]
    [((("main", "amd64") : String × String),
      [("u/Packages.xz", (⟨5, 0⟩ : Timestamp)), ("u/Other", (⟨0, 0⟩ : Timestamp))])]
    [((("main", "amd64") : String × String),
      [("u/Packages.xz", (⟨5, 7⟩ : Timestamp))])]
    (by decide) (by decide) (by decide) ?_ ?_
  · intro p m h
    by_cases hp : p = "u/Packages.xz"
    · simp [hp] at h
      subst h
      norm_num
    · simp [hp] at h
  · intro p m1 m2 ha hb
    by_cases hp : p = "u/Packages.xz"
    · simp [hp] at ha hb
      subst ha
      subst hb
      norm_num
    · simp [hp] at ha

/-- A raised force flag makes the per-file test pass regardless of
direction. -/
theorem selectEntry_of_force (prev force m : Bool) (t : Timestamp)
    (h : (prev || force) = true) : selectEntry prev force m t = true := by
  cases m <;> cases prev <;> cases force <;> simp_all [selectEntry]

/-- Under a force flag the inner loop returns every file, extension
stripped. -/
theorem getFilesEntries_force (prev force m : Bool) (es : Entries)
    (h : (prev || force) = true) :
    getFilesEntries prev force m es = es.map (fun e => splitExtBase e.1) := by
  induction es with
  | nil => rfl
  | cons e rest ih =>
    simp [getFilesEntries, List.filterMap_cons, selectEntry_of_force _ _ _ _ h] at ih ⊢
    exact ih

/-- Under a force flag the whole nested loop returns every registered file,
extension stripped. -/
theorem collectPc_force (prev force m : Bool) (c : PackageCollection)
    (h : (prev || force) = true) :
    collectPc prev force m c = (pcAllEntries c).map (fun e => splitExtBase e.1) := by
  induction c with
  | nil => rfl
  | cons g rest ih =>
    simp [collectPc, pcAllEntries, getFilesEntries_force _ _ _ _ h, ih]

/-- Source-collection analogue of `collectPc_force`. -/
theorem collectSc_force (prev force m : Bool) (s : SourceCollection)
    (h : (prev || force) = true) :
    collectSc prev force m s = (scAllEntries s).map (fun e => splitExtBase e.1) := by
  induction s with
  | nil => rfl
  | cons g rest ih =>
    simp [collectSc, scAllEntries, getFilesEntries_force _ _ _ _ h, ih]

/-- A guarded filterMap is a filter followed by a map. -/
theorem filterMap_if {α β : Type} (p : α → Bool) (f : α → β) (l : List α) :
    l.filterMap (fun a => if p a then some (f a) else none) = (l.filter p).map f := by
  induction l with
  | nil => rfl
  | cons a rest ih =>
    by_cases hp : p a = true <;> simp [List.filterMap_cons, List.filter_cons, hp, ih]

/-- Without force flags the inner loop filters by the (un)modified test. -/
theorem getFilesEntries_no_force (m : Bool) (es : Entries) :
    getFilesEntries false false m es =
      ((es.filter (fun e => if m then e.2.modified else !e.2.modified)).map
        (fun e => splitExtBase e.1)) := by
  rw [← filterMap_if]
  unfold getFilesEntries
  congr 1
  funext e
  cases m <;> simp [selectEntry]

/-- Without force flags the whole nested loop filters by the (un)modified
test. -/
theorem collectPc_no_force (m : Bool) (c : PackageCollection) :
    collectPc false false m c =
      (((pcAllEntries c).filter (fun e => if m then e.2.modified else !e.2.modified)).map
        (fun e => splitExtBase e.1)) := by
  induction c with
  | nil => rfl
  | cons g rest ih =>
    simp [collectPc, pcAllEntries, getFilesEntries_no_force, ih]

/-- Source-collection analogue of `collectPc_no_force`. -/
theorem collectSc_no_force (m : Bool) (s : SourceCollection) :
    collectSc false false m s =
      (((scAllEntries s).filter (fun e => if m then e.2.modified else !e.2.modified)).map
        (fun e => splitExtBase e.1)) := by
  induction s with
  | nil => rfl
  | cons g rest ih =>
    simp [collectSc, scAllEntries, getFilesEntries_no_force, ih]

/-- Deduplication does not change the set of elements. -/
theorem dedup_toFinset {α : Type} [DecidableEq α] (l : List α) :
    l.dedup.toFinset = l.toFinset := by
  ext a
  simp [List.mem_toFinset, List.mem_dedup]

/-- C9: with a force flag raised (`forceUpdate` or the previous-run
interrupted flag), `ModifiedFiles` and `UnmodifiedFiles` return the same
list — every registered file with its extension stripped; without a force
flag, `ModifiedFiles` returns (as a set) exactly the registered files with
`current ≠ download` and `UnmodifiedFiles` exactly those with
`current = download`, extensions stripped, for both the package and the
source collection. -/
theorem C9_theorem (prev force : Bool) (c : PackageCollection) (s : SourceCollection) :
    ((prev || force) = true →
      pcGetFiles prev force true c = pcGetFiles prev force false c ∧
      scGetFiles prev force true s = scGetFiles prev force false s ∧
      (pcGetFiles prev force true c).toFinset =
        ((pcAllEntries c).map (fun e => splitExtBase e.1)).toFinset ∧
      (scGetFiles prev force true s).toFinset =
        ((scAllEntries s).map (fun e => splitExtBase e.1)).toFinset) ∧
    ((prev || force) = false →
      (pcGetFiles prev force true c).toFinset =
        (((pcAllEntries c).filter (fun e => e.2.modified)).map
          (fun e => splitExtBase e.1)).toFinset ∧
      (pcGetFiles prev force false c).toFinset =
        (((pcAllEntries c).filter (fun e => !e.2.modified)).map
          (fun e => splitExtBase e.1)).toFinset ∧
      (scGetFiles prev force true s).toFinset =
        (((scAllEntries s).filter (fun e => e.2.modified)).map
          (fun e => splitExtBase e.1)).toFinset ∧
      (scGetFiles prev force false s).toFinset =
        (((scAllEntries s).filter (fun e => !e.2.modified)).map
          (fun e => splitExtBase e.1)).toFinset) := by
  constructor
  · intro h
    refine ⟨?_, ?_, ?_, ?_⟩
    · unfold pcGetFiles
      rw [collectPc_force _ _ _ _ h, collectPc_force _ _ _ _ h]
    · unfold scGetFiles
      rw [collectSc_force _ _ _ _ h, collectSc_force _ _ _ _ h]
    · unfold pcGetFiles
      rw [collectPc_force _ _ _ _ h]
      exact dedup_toFinset _
    · unfold scGetFiles
      rw [collectSc_force _ _ _ _ h]
      exact dedup_toFinset _
  · intro h
    obtain ⟨rfl, rfl⟩ : prev = false ∧ force = false := by
      cases prev <;> cases force <;> simp_all
    refine ⟨?_, ?_, ?_, ?_⟩
    · unfold pcGetFiles
      rw [collectPc_no_force]
      simpa using dedup_toFinset _
    · unfold pcGetFiles
      rw [collectPc_no_force]
      simpa using dedup_toFinset _
    · unfold scGetFiles
      rw [collectSc_no_force]
      simpa using dedup_toFinset _
    · unfold scGetFiles
      rw [collectSc_no_force]
      simpa using dedup_toFinset _

/-- Witness for C9: on a concrete two-file package collection and one-file
source collection, the force flag makes both listings coincide, and without
it the listings are the modified (resp. unmodified) files. -/
theorem C9_witness :
    (pcGetFiles true false true
        [((("main", "amd64") : String × String),
          [("u/a.xz", (⟨5, 7⟩ : Timestamp)), ("u/b.gz", (⟨3, 3⟩ : Timestamp))])] =
      pcGetFiles true false false
        [((("main", "amd64") : String × String),
          [("u/a.xz", (⟨5, 7⟩ : Timestamp)), ("u/b.gz", (⟨3, 3⟩ : Timestamp))])]) ∧
    (scGetFiles true false true [(("main" : String), [("u/s.gz", (⟨1, 1⟩ : Timestamp))])] =
      scGetFiles true false false [(("main" : String), [("u/s.gz", (⟨1, 1⟩ : Timestamp))])]) ∧
    ((pcGetFiles false false true
        [((("main", "amd64") : String × String),
          [("u/a.xz", (⟨5, 7⟩ : Timestamp)), ("u/b.gz", (⟨3, 3⟩ : Timestamp))])]).toFinset =
      (((pcAllEntries
        [((("main", "amd64") : String × String),
          [("u/a.xz", (⟨5, 7⟩ : Timestamp)), ("u/b.gz", (⟨3, 3⟩ : Timestamp))])]).filter
            (fun e => e.2.modified)).map (fun e => splitExtBase e.1)).toFinset) ∧
    ((scGetFiles false false false
        [(("main" : String), [("u/s.gz", (⟨1, 1⟩ : Timestamp))])]).toFinset =
      (((scAllEntries [(("main" : String), [("u/s.gz", (⟨1, 1⟩ : Timestamp))])]).filter
            (fun e => !e.2.modified)).map (fun e => splitExtBase e.1)).toFinset) :=
  ⟨((C9_theorem true false
      [((("main", "amd64") : String × String),
        [("u/a.xz", (⟨5, 7⟩ : Timestamp)), ("u/b.gz", (⟨3, 3⟩ : Timestamp))])]
      [(("main" : String), [("u/s.gz", (⟨1, 1⟩ : Timestamp))])]).1 rfl).1,
   ((C9_theorem true false
      [((("main", "amd64") : String × String),
        [("u/a.xz", (⟨5, 7⟩ : Timestamp)), ("u/b.gz", (⟨3, 3⟩ : Timestamp))])]
      [(("main" : String), [("u/s.gz", (⟨1, 1⟩ : Timestamp))])]).1 rfl).2.1,
   ((C9_theorem false false
      [((("main", "amd64") : String × String),
        [("u/a.xz", (⟨5, 7⟩ : Timestamp)), ("u/b.gz", (⟨3, 3⟩ : Timestamp))])]
      [(("main" : String), [("u/s.gz", (⟨1, 1⟩ : Timestamp))])]).2 rfl).1,
   ((C9_theorem false false
      [((("main", "amd64") : String × String),
        [("u/a.xz", (⟨5, 7⟩ : Timestamp)), ("u/b.gz", (⟨3, 3⟩ : Timestamp))])]
      [(("main" : String), [("u/s.gz", (⟨1, 1⟩ : Timestamp))])]).2 rfl).2.2.2⟩
